import Mathlib

/-!
Verification of the cleaning/normalization pipeline of
`scripts/amazon_full_pipeline_v2.py` (Amazon India Sales Analytics).

The Python source is shallowly embedded: raw cell values become the
inductive type `RawValue`; each field normalizer (`clean_price`,
`clean_category`, `clean_city`, `clean_payment`, `to_bool`,
`clean_rating`, `clean_delivery_days`, `value_segment`) is translated
into a total Lean function over `RawValue`; numbers are modelled with
`Rat` (the Python code works with `float`, but every constant and every
operation used by the pipeline is exact decimal arithmetic, comparison,
min and averaging, all of which `Rat` reproduces); Python string
operations (`strip`, `lower`, `upper`, `title`, `re` searches used by
the script) are reimplemented character-by-character for the ASCII
fragment the pipeline manipulates.  `float(...)` parsing is modelled
for plain decimal literals (optional sign, digits, optional fractional
part); other accepted Python spellings (exponents, underscores,
`inf`) do not occur in any branch a claim depends on and are treated
as parse failures.  Functions that can raise in Python (`to_bool` on
NaN, and the batch pipeline `load_and_clean`) return `Except String`.
-/

/-- A raw cell value of the input table: Python `None`, a float `NaN`
(the pandas missing-value marker, distinct from `None` because
`to_bool` treats them differently), an `int`, a `float` written as a
decimal `m / 10 ^ e`, or a `str`. -/
inductive RawValue where
  | null : RawValue
  | nan : RawValue
  | int : Int → RawValue
  | float : Int → Nat → RawValue
  | str : String → RawValue
deriving DecidableEq, Repr

/-- `pd.isna` on a scalar: true exactly on `None` and `NaN`. -/
def isna : RawValue → Bool
  | .null => true
  | .nan => true
  | _ => false

/-- ASCII lower-case letter test (`[a-z]`). -/
def lowB (c : Char) : Bool := 97 ≤ c.toNat && c.toNat ≤ 122

/-- ASCII upper-case letter test (`[A-Z]`). -/
def upB (c : Char) : Bool := 65 ≤ c.toNat && c.toNat ≤ 90

/-- ASCII letter test, the word-character notion used by Python
`str.title` for grouping. -/
def alphaB (c : Char) : Bool := upB c || lowB c

/-- ASCII digit test (`\d` over the data the pipeline sees). -/
def digB (c : Char) : Bool := 48 ≤ c.toNat && c.toNat ≤ 57

/-- Whitespace as stripped/collapsed by the pipeline (`\s`, `str.strip`):
space, tab, carriage return, newline. -/
def wsB (c : Char) : Bool := c.toNat == 32 || c.toNat == 9 || c.toNat == 13 || c.toNat == 10

/-- Python `str.upper` on one ASCII character. -/
def upcChar (c : Char) : Char := if lowB c then Char.ofNat (c.toNat - 32) else c

/-- Python `str.lower` on one ASCII character. -/
def lowcChar (c : Char) : Char := if upB c then Char.ofNat (c.toNat + 32) else c

/-- Python `str.lower` over a string, as a list of characters. -/
def pyLowerL (l : List Char) : List Char := l.map lowcChar

/-- Python `str.upper` over a string, as a list of characters. -/
def pyUpperL (l : List Char) : List Char := l.map upcChar

/-- One step of `re.sub(r"\s+", " ", s)`: every maximal whitespace run
is replaced by a single space. -/
def squeeze : List Char → List Char
  | [] => []
  | [c] => if wsB c then [' '] else [c]
  | c1 :: c2 :: cs =>
    if wsB c1 then
      if wsB c2 then squeeze (c2 :: cs)
      else ' ' :: squeeze (c2 :: cs)
    else c1 :: squeeze (c2 :: cs)

/-- Remove trailing whitespace (the right half of `str.strip`). -/
def dropTrail : List Char → List Char
  | [] => []
  | c :: cs =>
    match dropTrail cs with
    | [] => if wsB c then [] else [c]
    | r => c :: r

/-- Python `str.strip` over a list of characters. -/
def pyStripL (l : List Char) : List Char := dropTrail (l.dropWhile wsB)

/-- Python `str.strip` over a `String`. -/
def pyStripS (s : String) : String := String.mk (pyStripL s.data)

/-- `normalize_space` of the source: `re.sub(r"\s+", " ", s).strip()`. -/
def normalize_space (s : String) : String := String.mk (pyStripL (squeeze s.data))

/-- One character of Python `str.title`: `b` records whether the
previous character was a letter; a letter after a non-letter is
upper-cased, a letter after a letter is lower-cased. -/
def tchar (b : Bool) (c : Char) : Char :=
  if alphaB c then (if b then lowcChar c else upcChar c) else c

/-- Python `str.title` over a list of characters, with the
previous-character-was-a-letter flag. -/
def titleL : Bool → List Char → List Char
  | _, [] => []
  | b, c :: cs => tchar b c :: titleL (alphaB c) cs

/-- Python `str.title` over a `String`. -/
def pyTitleS (s : String) : String := String.mk (titleL false s.data)

/-- Does `pat` occur at the head of `l`? (regex-style literal match). -/
def isPre : List Char → List Char → Bool
  | [], _ => true
  | _ :: _, [] => false
  | p :: ps, c :: cs => p == c && isPre ps cs

/-- Python `pat in s` / `re.search` of a literal pattern: does `pat`
occur anywhere in `l`? -/
def hasSub : List Char → List Char → Bool
  | [], pat => pat.isEmpty
  | l@(_ :: cs), pat => isPre pat l || hasSub cs pat

/-- `re.search("pat1.*pat2", l)` for literal `pat1`, `pat2`: `pat1`
occurs and `pat2` occurs at or after the end of its first occurrence. -/
def hasSubThen (pat1 pat2 : List Char) : List Char → Bool
  | [] => isPre pat1 [] && hasSub [] pat2
  | c :: cs =>
    if isPre pat1 (c :: cs) then hasSub ((c :: cs).drop pat1.length) pat2
    else hasSubThen pat1 pat2 cs

/-- Does any of the literal alternatives occur in `l`? (a regex
alternation under `re.search`, with `X ?Y` expanded into its two
spellings). -/
def hasAny (l : List Char) (pats : List String) : Bool :=
  pats.any (fun p => hasSub l p.data)

/-- Python `str.replace(pat, repl)`: replace every (leftmost,
non-overlapping) occurrence.  The fuel argument (initially the input
length, which each step strictly exceeds the consumption of) keeps the
recursion structural. -/
def replAllF (p : Char) (ps : List Char) (r : List Char) : Nat → List Char → List Char
  | _, [] => []
  | 0, l => l
  | fuel + 1, c :: cs =>
    if isPre (p :: ps) (c :: cs) then r ++ replAllF p ps r fuel (cs.drop ps.length)
    else c :: replAllF p ps r fuel cs

/-- `str.replace` with a `String` pattern (must be nonempty, as all the
patterns the source replaces are). -/
def pyReplace (l : List Char) (pat repl : String) : List Char :=
  match pat.data with
  | [] => l
  | p :: ps => replAllF p ps repl.data l.length l

/-- Numeric value of a digit run. -/
def digitsVal (l : List Char) : Nat := l.foldl (fun a c => a * 10 + (c.toNat - 48)) 0

/-- Rational negation, written through `Rat.divInt` so the kernel can
evaluate it (the library field operations are `irreducible`); proved
equal to `Neg.neg` below. -/
def qneg (a : ℚ) : ℚ := Rat.divInt (-a.num) a.den

/-- Rational addition through `Rat.divInt`; proved equal to `+` below. -/
def qadd (a b : ℚ) : ℚ := Rat.divInt (a.num * b.den + b.num * a.den) (a.den * b.den)

/-- Rational multiplication through `Rat.divInt`; proved equal to `*`
below. -/
def qmul (a b : ℚ) : ℚ := Rat.divInt (a.num * b.num) (a.den * b.den)

/-- Rational division through `Rat.divInt`; proved equal to `/` below
(with the `x / 0 = 0` convention both share). -/
def qdiv (a b : ℚ) : ℚ := Rat.divInt (a.num * b.den) (a.den * b.num)

/-- Rational subtraction; proved equal to `-` below. -/
def qsub (a b : ℚ) : ℚ := qadd a (qneg b)

/-- Value of a fractional digit run `ds` standing after a decimal point. -/
def fracVal (ds : List Char) : ℚ := qdiv (digitsVal ds : ℚ) ((10 ^ ds.length : ℕ) : ℚ)

/-- Python `float(s)` on an (already stripped) decimal literal without
sign: `digits`, `digits.`, `digits.digits` or `.digits`, nothing after.
Exponents, underscores, `inf` and `nan` spellings are treated as parse
failures (no claim depends on them). -/
def parseFloatBody (l : List Char) : Option ℚ :=
  let ds := l.takeWhile digB
  let r1 := l.dropWhile digB
  match ds, r1 with
  | [], '.' :: r2 =>
    let fs := r2.takeWhile digB
    let r3 := r2.dropWhile digB
    if fs ≠ [] && r3.isEmpty then some (fracVal fs) else none
  | [], _ => none
  | _ :: _, [] => some (digitsVal ds : ℚ)
  | _ :: _, '.' :: r2 =>
    let fs := r2.takeWhile digB
    let r3 := r2.dropWhile digB
    if r3.isEmpty then some (qadd (digitsVal ds : ℚ) (fracVal fs)) else none
  | _ :: _, _ :: _ => none

/-- Python `float(s)`  with the optional leading sign. -/
def parseFloat (l : List Char) : Option ℚ :=
  match l with
  | '+' :: rest => parseFloatBody rest
  | '-' :: rest => (parseFloatBody rest).map qneg
  | _ => parseFloatBody l

/-- Leading match of the regex piece `\d+(\.\d+)?`: the parsed value
and the rest of the input.  If the optional group fails (a dot with no
digit after it) the dot is left unconsumed, as regex backtracking
does. -/
def regexNum (l : List Char) : Option (ℚ × List Char) :=
  let ds := l.takeWhile digB
  let r1 := l.dropWhile digB
  if ds.isEmpty then none
  else
    match r1 with
    | '.' :: r2 =>
      let fs := r2.takeWhile digB
      let r3 := r2.dropWhile digB
      if fs.isEmpty then some ((digitsVal ds : ℚ), r1)
      else some (qadd (digitsVal ds : ℚ) (fracVal fs), r3)
    | _ => some ((digitsVal ds : ℚ), r1)

/-- `re.match(r"(\d+(\.\d+)?)[ ]*/[ ]*(\d+(\.\d+)?)", s)` of
`clean_rating`: numerator and denominator groups. -/
def fracMatch (l : List Char) : Option (ℚ × ℚ) :=
  match regexNum l with
  | none => none
  | some (num, r1) =>
    match r1.dropWhile (fun c => c == ' ') with
    | '/' :: r3 =>
      match regexNum (r3.dropWhile (fun c => c == ' ')) with
      | some (den, _) => some (num, den)
      | none => none
    | _ => none

/-- `re.match(r"(\d+)\s*-\s*(\d+)", s)` of `clean_delivery_days`. -/
def rangeM (l : List Char) : Option (Nat × Nat) :=
  let ds := l.takeWhile digB
  let r1 := l.dropWhile digB
  if ds.isEmpty then none
  else
    match r1.dropWhile wsB with
    | '-' :: r2 =>
      let es := (r2.dropWhile wsB).takeWhile digB
      if es.isEmpty then none else some (digitsVal ds, digitsVal es)
    | _ => none

/-- `re.match(r"(\d+)", s)`: a leading digit run. -/
def leadInt (l : List Char) : Option Nat :=
  let ds := l.takeWhile digB
  if ds.isEmpty then none else some (digitsVal ds)

/-- Python `str(x)` for a raw value.  Floats are rendered as decimals
with `e` digits after the point (Python shortest-repr niceties do not
matter to any claim). -/
def floatStr (m : Int) (e : Nat) : String :=
  let sign := if m < 0 then "-" else ""
  let a := m.natAbs
  if e = 0 then sign ++ toString a ++ ".0"
  else
    let fr := toString (a % 10 ^ e)
    sign ++ toString (a / 10 ^ e) ++ "." ++
      String.mk (List.replicate (e - fr.length) '0') ++ fr

/-- Python `str(x)` on a raw cell value. -/
def rawStr : RawValue → String
  | .null => "None"
  | .nan => "nan"
  | .int n => toString n
  | .float m e => floatStr m e
  | .str s => s

/-- `clean_price` (lines 33-45): strip currency symbols and commas,
reject placeholder text matching
`re.search(r"(price.*request|na|n/?a|none|null)", s, re.I)`, then try
`float(s)`.  `np.nan` results are `none`. -/
def clean_price (x : RawValue) : Option ℚ :=
  if isna x then none
  else
    let s := pyStripL ((rawStr x).data.filter (fun c => !(c == '₹' || c == '$' || c == ',')))
    if s.isEmpty then none
    else
      let t := pyLowerL s
      if hasSubThen "price".data "request".data t || hasSub t "na".data ||
          hasSub t "n/a".data || hasSub t "none".data || hasSub t "null".data then none
      else parseFloat s

/-- `CATEGORY_KEYWORDS` (lines 47-54), with each regex alternation
expanded into its literal alternatives. -/
def CATEGORY_KEYWORDS : List (List String × String) :=
  [ (["smartphone", "mobile", "phone"], "Smartphones"),
    (["laptop", "notebook", "ultrabook"], "Laptops"),
    (["tablet", "ipad"], "Tablets"),
    (["watch", "wearable"], "Smart Watches"),
    (["tv", "television", "entertain"], "TV & Entertainment"),
    (["audio", "headphone", "earbud", "earphone", "speaker", "soundbar"], "Audio") ]

/-- First keyword rule of `CATEGORY_KEYWORDS` matching `s`
(`re.search(pat, s, re.I)` on the already lower-cased `s`). -/
def firstKeyword (s : List Char) : Option String :=
  (CATEGORY_KEYWORDS.find? (fun r => hasAny s r.1)).map (fun r => r.2)

/-- The `unified` exact-compound table inside `clean_category`
(lines 71-78). -/
def unifiedLookup (s : List Char) : Option String :=
  if s = "electronics smartphones".data then some "Smartphones"
  else if s = "electronics laptops".data then some "Laptops"
  else if s = "electronics tablets".data then some "Tablets"
  else if s = "electronics smart watch".data then some "Smart Watches"
  else if s = "electronics tv and entertainment".data then some "TV & Entertainment"
  else if s = "electronics audio".data then some "Audio"
  else none

/-- The per-source preprocessing of `clean_category`:
`normalize_space(str(source)).lower()` then `&`, `/`, `-` → space. -/
def catPrep (s0 : String) : List Char :=
  (pyLowerL (normalize_space s0).data).map
    (fun c => if c == '&' || c == '/' || c == '-' then ' ' else c)

/-- One iteration of the source loop of `clean_category`: keyword rules
first, then the exact-compound table. -/
def catSource (x : RawValue) : Option String :=
  if isna x then none
  else
    let s := catPrep (rawStr x)
    (firstKeyword s).orElse (fun _ => unifiedLookup s)

/-- `clean_category` (lines 56-81): try `val`, then `subcat`, then
`product_name`; first source with a match wins; else `"Other"`. -/
def clean_category (val subcat product_name : RawValue) : String :=
  (((catSource val).orElse (fun _ => catSource subcat)).orElse
    (fun _ => catSource product_name)).getD "Other"

/-- The variant of `clean_category` with the exact-compound `unified`
table removed (only the keyword rules remain); `clean_category` is
claimed extensionally equal to it. -/
def catSourceNoExact (x : RawValue) : Option String :=
  if isna x then none else firstKeyword (catPrep (rawStr x))

/-- `clean_category` without the exact-compound table. -/
def clean_category_noexact (val subcat product_name : RawValue) : String :=
  (((catSourceNoExact val).orElse (fun _ => catSourceNoExact subcat)).orElse
    (fun _ => catSourceNoExact product_name)).getD "Other"

/-- `CITY_FIX` (lines 83-91). -/
def CITY_FIX : List (String × String) :=
  [ ("Bangalore", "Bengaluru"),
    ("Banglore", "Bengaluru"),
    ("Bengalore", "Bengaluru"),
    ("Calcutta", "Kolkata"),
    ("Madras", "Chennai"),
    ("Delhi Ncr", "Delhi"),
    ("Chenai", "Chennai") ]

/-- `clean_city` (lines 93-97): missing/blank → `"Unknown"`; else
title-case the whitespace-normalized string and apply `CITY_FIX`. -/
def clean_city (city : RawValue) : String :=
  if isna city || pyStripS (rawStr city) == "" then "Unknown"
  else
    let s := pyTitleS (normalize_space (rawStr city))
    match CITY_FIX.lookup s with
    | some v => v
    | none => s

/-- `clean_payment` (lines 99-117): upper-case the whitespace-normalized
string, then test the rule groups in order; each `re.search` alternation
is expanded into its literal alternatives (`G?PAY` matches `GPAY` and
bare `PAY`). -/
def clean_payment (x : RawValue) : String :=
  if isna x then "Other"
  else
    let s := pyUpperL (normalize_space (rawStr x)).data
    if hasAny s ["UPI", "GOOGLE PAY", "GOOGLEPAY", "GPAY", "PAY", "PHONE PE", "PHONEPE", "BHIM"] then "UPI"
    else if hasAny s ["CREDIT", "CC"] then "Credit Card"
    else if hasAny s ["DEBIT", "DC"] then "Debit Card"
    else if hasAny s ["COD", "C.O.D", "C.OD", "CO.D"] then "COD"
    else if hasAny s ["NET BANK", "NETBANK"] then "Net Banking"
    else if hasAny s ["WALLET", "PAYTM", "AMAZON PAY", "AMAZONPAY"] then "Wallet"
    else if hasAny s ["BNPL", "PAY LATER", "PAYLATER", "LAZY PAY", "LAZYPAY", "SIMPL"] then "BNPL"
    else "Other"

/-- Python `int(x)` truncation (towards zero) of the decimal `m / 10^e`. -/
def truncF (m : Int) (e : Nat) : Int :=
  if 0 ≤ m then ((m.natAbs / 10 ^ e : Nat) : Int) else -((m.natAbs / 10 ^ e : Nat) : Int)

/-- `to_bool` (lines 119-124).  `isinstance(x, (int, float))` covers the
`int`, `float` and `NaN` cases; `int(float("nan"))` raises `ValueError`
in Python, so the `NaN` case returns an error.  Everything else goes
through `str(x).strip().lower()` set membership, defaulting to
`False`. -/
def to_bool : RawValue → Except String Bool
  | .int n => .ok (n == 1)
  | .float m e => .ok (truncF m e == 1)
  | .nan => .error "ValueError: cannot convert float NaN to integer"
  | x =>
    let s := pyLowerL (pyStripL (rawStr x).data)
    if s = "true".data || s = "yes".data || s = "y".data || s = "1".data then .ok true
    else if s = "false".data || s = "no".data || s = "n".data || s = "0".data then .ok false
    else .ok false

/-- Round-half-to-even on a rational, the rounding Python `round`
performs on the exact value. -/
def rhe (x : ℚ) : Int :=
  let f := x.floor
  let r := qsub x (f : ℚ)
  if r < Rat.divInt 1 2 then f
  else if Rat.divInt 1 2 < r then f + 1
  else if f % 2 = 0 then f else f + 1

/-- Python `round(x, 2)`. -/
def pyRound2 (x : ℚ) : ℚ := qdiv ((rhe (qmul x 100) : ℤ) : ℚ) 100

/-- `clean_rating` (lines 126-142): lower-case and strip, remove the
textual suffixes, try `float`; a direct parse ≤ 0 is missing, else
capped at 5.0.  On parse failure try the `num/den` pattern, rescale to
5, cap, and round to 2 decimals. -/
def clean_rating (r : RawValue) : Option ℚ :=
  if isna r then none
  else
    let s0 := pyStripL (pyLowerL (rawStr r).data)
    let s1 := pyReplace (pyReplace (pyReplace (pyReplace (pyReplace s0
      "stars" "") "star" "") "/5.0" "") "/5" "") "out of 5" ""
    let s := pyStripL s1
    match parseFloat s with
    | some val => if val ≤ 0 then none else some (min val 5)
    | none =>
      match fracMatch s with
      | some (num, den) =>
        if 0 < den then some (pyRound2 (min (qmul (qdiv num den) 5) 5)) else none
      | none => none

/-- `clean_delivery_days` (lines 153-168): same-day words → 0; a range
`A-B` → the average of `A` and `B` (no bound is applied on this
branch); a leading integer → that integer, rejected when above 30 (the
`val < 0` test of the source is unreachable, the regex only matching
digits); else missing. -/
def clean_delivery_days (x : RawValue) : Option ℚ :=
  if isna x then none
  else
    let s := pyLowerL (pyStripL (rawStr x).data)
    if s = "same day".data || s = "same-day".data || s = "today".data then some 0
    else
      match rangeM s with
      | some (a, b) => some (qdiv (((a + b : ℕ) : ℚ)) 2)
      | none =>
        match leadInt s with
        | some val => if 30 < val then none else some (val : ℚ)
        | none => none

/-- The threshold bucketing of `value_segment` (lines 170-177) on a
numeric amount. -/
def seg_thresholds (a : ℚ) : String :=
  if a ≤ 5000 then "Low"
  else if a ≤ 20000 then "Mid"
  else if a ≤ 50000 then "High"
  else if a ≤ 100000 then "Premium"
  else "Luxury"

/-- `value_segment` on a raw scalar: missing → `"Unknown"`, numbers are
bucketed, and a string goes through `float(amount)`, which raises on a
non-numeric string (there is no try/except in `value_segment`). -/
def value_segment (amount : RawValue) : Except String String :=
  if isna amount then .ok "Unknown"
  else
    match amount with
    | .int n => .ok (seg_thresholds (n : ℚ))
    | .float m e => .ok (seg_thresholds (qdiv (m : ℚ) ((10 ^ e : ℕ) : ℚ)))
    | .str s =>
      match parseFloat (pyStripL s.data) with
      | some q => .ok (seg_thresholds q)
      | none => .error "ValueError: could not convert string to float"
    | _ => .ok "Unknown"

/-- One input row: column name to raw cell value. -/
def Row : Type := List (String × RawValue)

/-- An input table as `pd.read_csv` delivers it: a column list and the
rows.  A cell a row does not list is the pandas missing value `NaN`. -/
structure Table where
  cols : List String
  rows : List Row

/-- Cell of a row under a column known to exist (missing entry = `NaN`). -/
def getCell (r : Row) (c : String) : RawValue :=
  (List.lookup c r).getD .nan

/-- `row.get(c)` of pandas: `None` when the column is absent from the
table. -/
def cellOrNull (t : Table) (r : Row) (c : String) : RawValue :=
  if c ∈ t.cols then getCell r c else .null

/-- Python `str.lower` over a `String`. -/
def pyLowerS (s : String) : String := String.mk (pyLowerL s.data)

/-- `parse_date_series` (lines 144-151) on one cell, with the two
library parsers abstracted as parameters: `pd.to_datetime` day-first
(`dp`), retried month-first (`dp2`) on values the first pass failed. -/
def rowDate (dp dp2 : RawValue → Option Int) (t : Table) (r : Row) : Option Int :=
  if "order_date" ∈ t.cols then
    (dp (getCell r "order_date")).orElse (fun _ => dp2 (getCell r "order_date"))
  else none

/-- Rows surviving the `dropna(subset=["order_date"])` of line 196,
paired with their parsed dates. -/
def survivorsOf (dp dp2 : RawValue → Option Int) (t : Table) : List (Row × Int) :=
  t.rows.filterMap (fun r => (rowDate dp dp2 t r).map (fun d => (r, d)))

/-- One source of the `final_amount_inr` fallback chain of lines
199-212: the column's cell through `clean_price`, or `missing` when
the column is absent. -/
def priceAt (t : Table) (r : Row) (c : String) : Option ℚ :=
  if c ∈ t.cols then clean_price (getCell r c) else none

/-- The `final_amount_inr` fallback chain of lines 199-212, row-wise:
explicit final amount, then discounted price, then subtotal, then
original price, first non-missing wins, then `fillna(0)`. -/
def rowFinalOf (t : Table) (r : Row) : ℚ :=
  ((((priceAt t r "final_amount_inr").orElse (fun _ => priceAt t r "discounted_price_inr")).orElse
    (fun _ => priceAt t r "subtotal_inr")).orElse
      (fun _ => priceAt t r "original_price_inr")).getD 0

/-- The prime-flag source column (lines 219-226 priority). -/
def primeCol (t : Table) : Option String :=
  if "is_prime_member" ∈ t.cols then some "is_prime_member"
  else if "is_prime" ∈ t.cols then some "is_prime"
  else if "is_prime_eligible" ∈ t.cols then some "is_prime_eligible"
  else none

/-- Collect a list of fallible results, propagating the first error
(the order in which `Series.apply` hits the rows). -/
def collectE : List (Except String Bool) → Except String (List Bool)
  | [] => .ok []
  | x :: xs =>
    match x with
    | .error e => .error e
    | .ok b =>
      match collectE xs with
      | .ok bs => .ok (b :: bs)
      | .error e => .error e

/-- The `is_prime` column computation: `to_bool` applied down the
selected source column can raise (on `NaN`). -/
def primesE (t : Table) (sv : List (Row × Int)) : Except String (List Bool) :=
  match primeCol t with
  | some c => collectE (sv.map (fun rd => to_bool (getCell rd.1 c)))
  | none => .ok (sv.map (fun _ => false))

/-- The city source column of lines 188-192: first column whose
lower-cased name is `city` or `customer_city`. -/
def cityColOf (t : Table) : Option String :=
  t.cols.find? (fun c => pyLowerS c == "city" || pyLowerS c == "customer_city")

/-- The cleaned city of one row (line 249; `"Unknown"` source when no
city column exists, line 192). -/
def cityOf (t : Table) (r : Row) : String :=
  clean_city (match cityColOf t with
    | some c => getCell r c
    | none => .str "Unknown")

/-- The cleaned rating of one row (lines 215-216; the column stays
absent when the source lacks it, modelled as `missing`). -/
def ratingOf (t : Table) (r : Row) : Option ℚ :=
  if "customer_rating" ∈ t.cols then clean_rating (getCell r "customer_rating") else none

/-- The cleaned payment method of one row (lines 229-232). -/
def payOf (t : Table) (r : Row) : String :=
  if "payment_method" ∈ t.cols then clean_payment (getCell r "payment_method") else "Other"

/-- The cleaned delivery estimate of one row (lines 235-236). -/
def delivOf (t : Table) (r : Row) : Option ℚ :=
  if "delivery_days" ∈ t.cols then clean_delivery_days (getCell r "delivery_days") else none

/-- The cleaned category of one row (lines 239-246, via `r.get`). -/
def catOf (t : Table) (r : Row) : String :=
  clean_category (cellOrNull t r "category") (cellOrNull t r "subcategory")
    (cellOrNull t r "product_name")

/-- Are the four duplicate keys all table columns?  `order_date` and
`final_amount_inr` are always created by lines 195 and 204-212 before
the check of line 263 runs, so only the two identifier columns can be
absent. -/
def dupKeysPresent (t : Table) : Bool :=
  decide ("customer_id" ∈ t.cols) && decide ("product_id" ∈ t.cols)

/-- The grouping key of line 262 for one surviving row: raw customer
and product identifiers, parsed order date, computed final amount. -/
def keyOf (t : Table) (rd : Row × Int) : RawValue × RawValue × Int × ℚ :=
  (getCell rd.1 "customer_id", getCell rd.1 "product_id", rd.2, rowFinalOf t rd.1)

/-- The duplicate flag of one surviving row (lines 261-265):
`groupby(dup_keys)["transaction_id"].transform("count") > 1`.  Rows
with a missing identifier in the key are left out of every group
(pandas drops NaN group keys), and `count` counts the rows of the
group whose `transaction_id` is not missing. -/
def dupFlag (t : Table) (sv : List (Row × Int)) (rd : Row × Int) : Bool :=
  let k := keyOf t rd
  !(isna k.1) && !(isna k.2.1) &&
    decide (1 < sv.countP (fun rd2 =>
      keyOf t rd2 = k ∧ ¬ isna (getCell rd2.1 "transaction_id") = true))

/-- Duplicate flags for all surviving rows; all-false when an
identifier column is absent (guard of line 263). -/
def dupFlagsOf (t : Table) (sv : List (Row × Int)) : List Bool :=
  if dupKeysPresent t then sv.map (dupFlag t sv) else sv.map (fun _ => false)

/-- One canonical output record (the columns the claims are about; the
purely date-derived fields year/month/quarter/label are chart-side
projections of `order_date` and are not modelled separately). -/
structure CRec where
  order_date : Int
  final_amount_inr : ℚ
  customer_rating : Option ℚ
  is_prime : Bool
  payment_method : String
  delivery_days : Option ℚ
  category : String
  city : String
  order_value_segment : String
  is_possible_duplicate : Bool
deriving DecidableEq, Repr

/-- Assemble the canonical record of one surviving row. -/
def mkRec (t : Table) (rd : Row × Int) (pr fl : Bool) : CRec :=
  { order_date := rd.2
    final_amount_inr := rowFinalOf t rd.1
    customer_rating := ratingOf t rd.1
    is_prime := pr
    payment_method := payOf t rd.1
    delivery_days := delivOf t rd.1
    category := catOf t rd.1
    city := cityOf t rd.1
    order_value_segment := seg_thresholds (rowFinalOf t rd.1)
    is_possible_duplicate := fl }

/-- `load_and_clean` (lines 182-267) on an already-read table.  The
three error exits reproduce where pandas raises: `fillna(None)` when a
fallback price column is absent (lines 206-211), `to_bool` on a `NaN`
prime cell (lines 219-226), and the unguarded `["transaction_id"]`
indexing of line 264 when the duplicate-key columns are present but
`transaction_id` is not. -/
def load_and_clean (dp dp2 : RawValue → Option Int) (t : Table) : Except String (List CRec) :=
  let sv := survivorsOf dp dp2 t
  if "discounted_price_inr" ∈ t.cols ∧ "subtotal_inr" ∈ t.cols ∧ "original_price_inr" ∈ t.cols then
    match primesE t sv with
    | .error e => .error e
    | .ok prs =>
      if dupKeysPresent t ∧ "transaction_id" ∉ t.cols then .error "KeyError: transaction_id"
      else .ok (List.zipWith (fun rdp fl => mkRec t rdp.1 rdp.2 fl) (sv.zip prs) (dupFlagsOf t sv))
  else .error "ValueError: must specify a fill value or method"

/-- `write_qa_report` (lines 384-396): the
`rows_dropped_due_to_invalid_dates` metric is literally
`rows_before - rows_after`. -/
def qa_rows_dropped (rows_before rows_after : Nat) : Nat := rows_before - rows_after

/-- A concrete date parser standing in for `pd.to_datetime` in the
witnesses: ISO `YYYY-MM-DD` strings only. -/
def isoDate : RawValue → Option Int
  | .str s =>
    match s.data with
    | [y1, y2, y3, y4, '-', m1, m2, '-', d1, d2] =>
      if [y1, y2, y3, y4, m1, m2, d1, d2].all digB then
        some ((digitsVal [y1, y2, y3, y4] * 10000 + digitsVal [m1, m2] * 100 +
          digitsVal [d1, d2] : Nat) : Int)
      else none
    | _ => none
  | _ => none

/-- The five price/date columns every well-formed batch of the pipeline
carries (the fallback chain needs the three alternate price columns to
exist, or pandas `fillna(None)` raises). -/
def baseCols : List String :=
  ["order_date", "final_amount_inr", "discounted_price_inr", "subtotal_inr",
    "original_price_inr"]

/-- One input row with just a date and an explicit final amount. -/
def dRow (d amt : String) : Row :=
  [("order_date", .str d), ("final_amount_inr", .str amt)]

/-- The end-to-end batch of the spec scenario: 5 rows, row 3 with the
unparseable date `"not-a-date"`. -/
def exampleT : Table :=
  { cols := baseCols
    rows := [dRow "2024-01-01" "100", dRow "2024-01-02" "250.50",
      dRow "not-a-date" "300", dRow "2024-01-04" "447", dRow "2024-01-05" "80"] }

/-- The canonical rows the pipeline emits on `exampleT`. -/
def exampleRecs : List CRec :=
  (load_and_clean isoDate isoDate exampleT).toOption.getD []

/-- A batch holding the four duplicate-key columns but no
`transaction_id` column: the guard of line 263 passes and line 264
indexes a column that does not exist. -/
def tNoTid : Table :=
  { cols := baseCols ++ ["customer_id", "product_id"]
    rows := [[("order_date", .str "2024-03-01"), ("final_amount_inr", .str "500"),
      ("customer_id", .str "C1"), ("product_id", .str "P1")]] }

/-- A batch with two rows identical in the four duplicate-key fields
whose `transaction_id` cells are both missing (`NaN`). -/
def tNullTid : Table :=
  { cols := baseCols ++ ["customer_id", "product_id", "transaction_id"]
    rows := [[("order_date", .str "2024-03-01"), ("final_amount_inr", .str "500"),
      ("customer_id", .str "C1"), ("product_id", .str "P1")],
      [("order_date", .str "2024-03-01"), ("final_amount_inr", .str "500"),
        ("customer_id", .str "C1"), ("product_id", .str "P1")]] }

/-- A batch with two duplicate rows (distinct transaction identifiers)
and a third row differing in the customer identifier. -/
def tDup3 : Table :=
  { cols := baseCols ++ ["customer_id", "product_id", "transaction_id"]
    rows := [[("order_date", .str "2024-03-01"), ("final_amount_inr", .str "500"),
      ("customer_id", .str "C1"), ("product_id", .str "P1"), ("transaction_id", .str "T1")],
      [("order_date", .str "2024-03-01"), ("final_amount_inr", .str "500"),
        ("customer_id", .str "C1"), ("product_id", .str "P1"), ("transaction_id", .str "T2")],
      [("order_date", .str "2024-03-01"), ("final_amount_inr", .str "500"),
        ("customer_id", .str "C2"), ("product_id", .str "P1"), ("transaction_id", .str "T3")]] }

/-- A one-row batch whose explicit final amount is the negative price
string `"-100"`. -/
def tNegAmt : Table :=
  { cols := baseCols
    rows := [dRow "2024-03-01" "-100"] }

/-- Proof-internal characterization: the list does not start with
whitespace. -/
def noWsStart : List Char → Bool
  | [] => true
  | c :: _ => !wsB c

/-- Proof-internal characterization: every whitespace character is a
plain space and is followed by a non-whitespace character (no two
adjacent whitespace characters, no trailing whitespace run except a
final single space, which the last-character clause excludes). -/
def okSq : List Char → Bool
  | [] => true
  | [c] => !wsB c || c == ' '
  | c1 :: c2 :: cs => (!wsB c1 || (c1 == ' ' && !wsB c2)) && okSq (c2 :: cs)

/-- Proof-internal characterization: the list does not end with
whitespace. -/
def lastNonWs : List Char → Bool
  | [] => true
  | [c] => !wsB c
  | _ :: c2 :: cs => lastNonWs (c2 :: cs)

/-- A list `re.sub(r"\s+", " ", s).strip()` leaves unchanged: no
leading or trailing whitespace, all whitespace single plain spaces. -/
def fixedNS (l : List Char) : Bool := noWsStart l && okSq l && lastNonWs l

deriving instance DecidableEq for Except

theorem qneg_eq (a : ℚ) : qneg a = -a := by
  unfold qneg
  rw [Rat.divInt_eq_div]
  push_cast
  rw [neg_div, Rat.num_div_den]

theorem qadd_eq (a b : ℚ) : qadd a b = a + b := by
  unfold qadd
  have ha : ((a.den : ℚ)) ≠ 0 := Nat.cast_ne_zero.mpr a.den_nz
  have hb : ((b.den : ℚ)) ≠ 0 := Nat.cast_ne_zero.mpr b.den_nz
  rw [Rat.divInt_eq_div]
  push_cast
  conv_rhs => rw [← Rat.num_div_den a, ← Rat.num_div_den b]
  field_simp

theorem qmul_eq (a b : ℚ) : qmul a b = a * b := by
  unfold qmul
  rw [Rat.divInt_eq_div]
  push_cast
  conv_rhs => rw [← Rat.num_div_den a, ← Rat.num_div_den b, div_mul_div_comm]

theorem qdiv_eq (a b : ℚ) : qdiv a b = a / b := by
  unfold qdiv
  have ha : ((a.den : ℚ)) ≠ 0 := Nat.cast_ne_zero.mpr a.den_nz
  rw [Rat.divInt_eq_div]
  push_cast
  rcases eq_or_ne b 0 with hb | hb
  · subst hb
    simp
  · have hbn : ((b.num : ℚ)) ≠ 0 := by
      exact_mod_cast Rat.num_ne_zero.mpr hb
    have hbd : ((b.den : ℚ)) ≠ 0 := Nat.cast_ne_zero.mpr b.den_nz
    conv_rhs => rw [← Rat.num_div_den a, ← Rat.num_div_den b]
    field_simp

theorem qsub_eq (a b : ℚ) : qsub a b = a - b := by
  unfold qsub
  rw [qneg_eq, qadd_eq, sub_eq_add_neg]

/-- C1.  The claim says every field normalizer is total and never
raises, for every raw input including `NaN`.  The boolean normalizer
`to_bool` refutes it: it has no `pd.isna` guard (unlike every other
normalizer), so a `NaN` cell — `isinstance(nan, float)` being true —
reaches `int(nan)`, which raises `ValueError` in Python.  This theorem
evaluates the embedded `to_bool` at the failing input. -/
theorem c1_to_bool_raises_on_nan :
    to_bool RawValue.nan = .error "ValueError: cannot convert float NaN to integer" := rfl

/-- C3.  The claim says inputs whose only rule keyword is a wallet
keyword (`Paytm`, `Amazon Pay`) map to `"Wallet"` and BNPL keywords
(`PayLater`) map to `"BNPL"`.  The code refutes it: the first rule
group contains `G?PAY`, whose optional `G` makes it match bare `PAY`,
so every string containing `PAY` — including `PAYTM`, `AMAZON PAY`,
`PAYLATER`, `LAZYPAY`, the very keywords the later wallet/BNPL rules
list — is claimed by the UPI rule first. -/
theorem c3_wallet_bnpl_keywords_map_to_upi :
    clean_payment (.str "Paytm") = "UPI" ∧ clean_payment (.str "Amazon Pay") = "UPI" ∧
      clean_payment (.str "PayLater") = "UPI" ∧ clean_payment (.str "LazyPay") = "UPI" := by
  refine ⟨?_, ?_, ?_, ?_⟩ <;> decide

/-- C6.  The claim says every readable table is cleaned without
raising, including tables holding the four duplicate-key columns but no
transaction-identifier column.  The code refutes it: line 263 guards
only `dup_keys`, and line 264 then indexes
`df.groupby(dup_keys)["transaction_id"]` unconditionally, a `KeyError`
when that column is absent.  `tNoTid` is such a table (one valid row;
`customer_id` and `product_id` present, `transaction_id` not). -/
theorem c6_missing_transaction_id_column_raises :
    load_and_clean isoDate isoDate tNoTid = .error "KeyError: transaction_id" := by decide

/-- C2, counterexample.  The claim says `final_amount_inr` is never
negative.  On the one-row batch `tNegAmt`, whose explicit final amount
is the string `"-100"`, `clean_price` parses the sign and the pipeline
emits a surviving row with `final_amount_inr = -100 < 0`: nothing in
the code rejects a negative parsed price. -/
theorem c2_counterexample_negative_final_amount :
    ((load_and_clean isoDate isoDate tNegAmt).toOption.getD []).map
        (fun r => r.final_amount_inr) = [-100] ∧ (-100 : ℚ) < 0 := by
  constructor
  · decide
  · decide

/-- C4, counterexample.  The claim says every result outside `[0, 30]`
is returned as missing.  The range branch refutes it: `"40-50"` maps to
the average `45`, with no bound applied (the `[0, 30]` rejection exists
only on the leading-integer branch). -/
theorem c4_counterexample_range_above_30 :
    clean_delivery_days (.str "40-50") = some 45 ∧ ¬ ((45 : ℚ) ≤ 30) := by
  constructor
  · decide
  · decide

/-- C5, counterexample.  The claim says every non-positive rating —
including fraction forms like `"0/10"` — becomes null.  The fraction
branch refutes it: it checks only that the denominator is positive, so
`"0/10"` is rescaled to `0.0` and returned, a non-null value outside
`(0, 5]`. -/
theorem c5_counterexample_zero_fraction_not_null :
    clean_rating (.str "0/10") = some 0 := by decide

/-- C7, counterexample.  The claim says any two rows identical in the
four duplicate-key fields are both flagged.  `tNullTid` refutes it: its
two rows agree on customer, product, date and amount, but their
`transaction_id` cells are missing, and
`transform("count")` counts only non-null transaction identifiers, so
the group count is 0 and neither row is flagged. -/
theorem c7_counterexample_null_tid_duplicates_unflagged :
    ((load_and_clean isoDate isoDate tNullTid).toOption.getD []).map
      (fun r => r.is_possible_duplicate) = [false, false] := by decide

theorem fracVal_nonneg (ds : List Char) : 0 ≤ fracVal ds := by
  unfold fracVal
  rw [qdiv_eq]
  positivity

theorem regexNum_nonneg (l : List Char) (q : ℚ) (r : List Char)
    (h : regexNum l = some (q, r)) : 0 ≤ q := by
  unfold regexNum at h
  dsimp only at h
  split at h
  · exact absurd h (by simp)
  · split at h
    · split at h
      · simp only [Option.some.injEq, Prod.mk.injEq] at h
        obtain ⟨h1, _⟩ := h
        subst h1
        positivity
      · simp only [Option.some.injEq, Prod.mk.injEq] at h
        obtain ⟨h1, _⟩ := h
        subst h1
        rw [qadd_eq]
        exact add_nonneg (by positivity) (fracVal_nonneg _)
    · simp only [Option.some.injEq, Prod.mk.injEq] at h
      obtain ⟨h1, _⟩ := h
      subst h1
      positivity

theorem fracMatch_nonneg (l : List Char) (num den : ℚ)
    (h : fracMatch l = some (num, den)) : 0 ≤ num ∧ 0 ≤ den := by
  unfold fracMatch at h
  split at h
  · exact absurd h (by simp)
  next num0 r1 heq =>
    split at h
    next r3 heq2 =>
      split at h
      next den0 r4 heq3 =>
        simp only [Option.some.injEq, Prod.mk.injEq] at h
        obtain ⟨h1, h2⟩ := h
        subst h1
        subst h2
        exact ⟨regexNum_nonneg _ _ _ heq, regexNum_nonneg _ _ _ heq3⟩
      · exact absurd h (by simp)
    · exact absurd h (by simp)

theorem rat_floor_eq (x : ℚ) : x.floor = ⌊x⌋ := by
  rw [Rat.floor_def', Rat.floor_def]

theorem rhe_nonneg (x : ℚ) (hx : 0 ≤ x) : 0 ≤ rhe x := by
  unfold rhe
  dsimp only
  have hf : (0 : ℤ) ≤ x.floor := by
    rw [rat_floor_eq]
    exact Int.floor_nonneg.mpr hx
  split
  · exact hf
  · split
    · omega
    · split
      · exact hf
      · omega

theorem rhe_le (x : ℚ) (n : ℤ) (hx : x ≤ (n : ℚ)) : rhe x ≤ n := by
  unfold rhe
  dsimp only
  have hf : x.floor ≤ n := by
    rw [rat_floor_eq]
    calc ⌊x⌋ ≤ ⌊(n : ℚ)⌋ := Int.floor_le_floor hx
    _ = n := Int.floor_intCast n
  have hlt : ¬ (qsub x (x.floor : ℚ) < Rat.divInt 1 2) → x.floor + 1 ≤ n := by
    intro hr
    rw [qsub_eq, Rat.divInt_eq_div, not_lt] at hr
    norm_num at hr
    have hq : ((x.floor : ℚ)) < (n : ℚ) := by linarith
    have : x.floor < n := by exact_mod_cast hq
    omega
  split
  next h1 => exact hf
  next h1 =>
    split
    · exact hlt h1
    · split
      · exact hf
      · exact hlt h1

theorem pyRound2_bounds (q : ℚ) (h0 : 0 ≤ q) (h5 : q ≤ 5) :
    0 ≤ pyRound2 q ∧ pyRound2 q ≤ 5 := by
  unfold pyRound2
  rw [qdiv_eq, qmul_eq]
  have hr0 : 0 ≤ rhe (q * 100) := rhe_nonneg _ (by positivity)
  have hr5 : rhe (q * 100) ≤ 500 := rhe_le _ 500 (by push_cast; linarith)
  constructor
  · apply div_nonneg _ (by norm_num)
    exact_mod_cast hr0
  · rw [div_le_iff₀ (by norm_num)]
    calc ((rhe (q * 100) : ℚ)) ≤ 500 := by exact_mod_cast hr5
    _ = 5 * 100 := by norm_num

/-- C5, amended.  For every raw input the rating normalizer returns
either null or a value in `[0, 5]`: a direct parse that is not
positive becomes null and larger values are capped at 5.0, but a
fraction form with zero numerator (such as `"0/10"`) is rescaled to
`0.0` and returned rather than becoming null, so the lower end of the
range is closed, not open. -/
theorem c5_amended_rating_in_closed_range (r : RawValue) :
    clean_rating r = none ∨ ∃ v, clean_rating r = some v ∧ 0 ≤ v ∧ v ≤ 5 := by
  unfold clean_rating
  dsimp only
  split
  · exact .inl rfl
  · split
    next val hval =>
      split
      · exact .inl rfl
      next hpos =>
        right
        refine ⟨min val 5, rfl, ?_, min_le_right _ _⟩
        rw [not_le] at hpos
        exact le_min (le_of_lt hpos) (by norm_num)
    · split
      next num den heq =>
        split
        next hden =>
          right
          obtain ⟨hnum, _⟩ := fracMatch_nonneg _ _ _ heq
          have hq0 : 0 ≤ min (qmul (qdiv num den) 5) 5 := by
            rw [qmul_eq, qdiv_eq]
            exact le_min (by positivity) (by norm_num)
          have hq5 : min (qmul (qdiv num den) 5) 5 ≤ 5 := min_le_right _ _
          obtain ⟨hb0, hb5⟩ := pyRound2_bounds _ hq0 hq5
          exact ⟨_, rfl, hb0, hb5⟩
        · exact .inl rfl
      · exact .inl rfl

/-- C4, amended.  For every raw input the delivery-days normalizer
returns either missing or a non-negative value; same-day phrases map
to 0 and a leading integer above 30 is rejected as missing, but the
range branch returns the unclamped average of the two endpoints, so
every returned value outside `[0, 30]` comes from a range `A-B` and
equals `(A + B) / 2`. -/
theorem c4_amended_delivery_days_nonneg_range_unclamped (x : RawValue) :
    clean_delivery_days x = none ∨
      ∃ v, clean_delivery_days x = some v ∧ 0 ≤ v ∧
        (v ≤ 30 ∨ ∃ a b : ℕ,
          rangeM (pyLowerL (pyStripL (rawStr x).data)) = some (a, b) ∧
            v = qdiv (((a + b : ℕ) : ℚ)) 2) := by
  unfold clean_delivery_days
  dsimp only
  split
  · exact .inl rfl
  · split
    · exact .inr ⟨0, rfl, le_refl 0, .inl (by norm_num)⟩
    · split
      next a b heq =>
        refine .inr ⟨_, rfl, ?_, .inr ⟨a, b, heq, rfl⟩⟩
        rw [qdiv_eq]
        positivity
      next hnone =>
        split
        next val hval =>
          split
          · exact .inl rfl
          next h30 =>
            refine .inr ⟨(val : ℚ), rfl, by positivity, .inl ?_⟩
            rw [not_lt] at h30
            exact_mod_cast h30
        · exact .inl rfl

/-- C2, amended.  For every row, `final_amount_inr` is non-null (the
chain ends in `fillna(0)`) and follows the ordered fallback chain
explicit final amount → discounted price → subtotal → original price →
0, first non-missing wins; it is non-negative whenever every present
price source parses to a non-negative value, but nothing rejects a
negative parsed price, so a negative source passes through (the
counterexample). -/
theorem c2_amended_final_amount_chain (t : Table) (r : Row) :
    (∀ v, priceAt t r "final_amount_inr" = some v → rowFinalOf t r = v) ∧
    (priceAt t r "final_amount_inr" = none →
      ∀ v, priceAt t r "discounted_price_inr" = some v → rowFinalOf t r = v) ∧
    (priceAt t r "final_amount_inr" = none → priceAt t r "discounted_price_inr" = none →
      ∀ v, priceAt t r "subtotal_inr" = some v → rowFinalOf t r = v) ∧
    (priceAt t r "final_amount_inr" = none → priceAt t r "discounted_price_inr" = none →
      priceAt t r "subtotal_inr" = none →
      ∀ v, priceAt t r "original_price_inr" = some v → rowFinalOf t r = v) ∧
    (priceAt t r "final_amount_inr" = none → priceAt t r "discounted_price_inr" = none →
      priceAt t r "subtotal_inr" = none → priceAt t r "original_price_inr" = none →
      rowFinalOf t r = 0) ∧
    (0 ≤ (priceAt t r "final_amount_inr").getD 0 →
      0 ≤ (priceAt t r "discounted_price_inr").getD 0 →
      0 ≤ (priceAt t r "subtotal_inr").getD 0 →
      0 ≤ (priceAt t r "original_price_inr").getD 0 →
      0 ≤ rowFinalOf t r) := by
  unfold rowFinalOf
  refine ⟨?_, ?_, ?_, ?_, ?_, ?_⟩
  · intro v hv
    simp [hv, Option.orElse]
  · intro h1 v hv
    simp [h1, hv, Option.orElse]
  · intro h1 h2 v hv
    simp [h1, h2, hv, Option.orElse]
  · intro h1 h2 h3 v hv
    simp [h1, h2, h3, hv, Option.orElse]
  · intro h1 h2 h3 h4
    simp [h1, h2, h3, h4, Option.orElse]
  · intro g1 g2 g3 g4
    cases h1 : priceAt t r "final_amount_inr" with
    | some v =>
      simp only [h1, Option.getD_some] at g1
      simp [h1, Option.orElse, g1]
    | none =>
      cases h2 : priceAt t r "discounted_price_inr" with
      | some v =>
        simp only [h2, Option.getD_some] at g2
        simp [h1, h2, Option.orElse, g2]
      | none =>
        cases h3 : priceAt t r "subtotal_inr" with
        | some v =>
          simp only [h3, Option.getD_some] at g3
          simp [h1, h2, h3, Option.orElse, g3]
        | none =>
          cases h4 : priceAt t r "original_price_inr" with
          | some v =>
            simp only [h4, Option.getD_some] at g4
            simp [h1, h2, h3, h4, Option.orElse, g4]
          | none => simp [h1, h2, h3, h4, Option.orElse]

/-- Witness for C2: on a concrete row with explicit final amount
`"100"`, the chain picks it and the result is non-negative. -/
theorem c2_amended_final_amount_chain_witness :
    rowFinalOf exampleT (dRow "2024-01-01" "100") = 100 ∧
      0 ≤ rowFinalOf exampleT (dRow "2024-01-01" "100") :=
  ⟨(c2_amended_final_amount_chain exampleT (dRow "2024-01-01" "100")).1 100 (by decide),
    (c2_amended_final_amount_chain exampleT (dRow "2024-01-01" "100")).2.2.2.2.2
      (by decide) (by decide) (by decide) (by decide)⟩

theorem catSource_eq_noexact (x : RawValue) : catSource x = catSourceNoExact x := by
  unfold catSource catSourceNoExact
  split
  · rfl
  · cases h : firstKeyword (catPrep (rawStr x)) with
    | some l => simp [Option.orElse, h]
    | none =>
      simp only [Option.orElse, h]
      unfold unifiedLookup
      split
      next heq => rw [heq] at h; exact absurd h (by decide)
      next =>
        split
        next heq => rw [heq] at h; exact absurd h (by decide)
        next =>
          split
          next heq => rw [heq] at h; exact absurd h (by decide)
          next =>
            split
            next heq => rw [heq] at h; exact absurd h (by decide)
            next =>
              split
              next heq => rw [heq] at h; exact absurd h (by decide)
              next =>
                split
                next heq => rw [heq] at h; exact absurd h (by decide)
                next => rfl

/-- C10.  The exact-compound `unified` table inside `clean_category` is
unreachable: every key of the table (e.g. `"electronics smartphones"`)
already matches one of the keyword rules tried first on the same
processed source string, so `clean_category` is extensionally equal to
the variant with the table removed. -/
theorem c10_exact_table_unreachable (val subcat product_name : RawValue) :
    clean_category val subcat product_name = clean_category_noexact val subcat product_name := by
  unfold clean_category clean_category_noexact
  rw [catSource_eq_noexact, catSource_eq_noexact, catSource_eq_noexact]


theorem filterMap_date_length (dp dp2 : RawValue → Option Int) (t : Table) (l : List Row) :
    (l.filterMap (fun r => (rowDate dp dp2 t r).map (fun d => (r, d)))).length
      = l.countP (fun r => (rowDate dp dp2 t r).isSome) := by
  induction l with
  | nil => rfl
  | cons r rs ih =>
    cases h : rowDate dp dp2 t r <;>
      simp [List.filterMap_cons, List.countP_cons, h, ih]

theorem collectE_length (l : List (Except String Bool)) (bs : List Bool)
    (h : collectE l = .ok bs) : bs.length = l.length := by
  induction l generalizing bs with
  | nil =>
    unfold collectE at h
    simp only [Except.ok.injEq] at h
    subst h
    rfl
  | cons x xs ih =>
    unfold collectE at h
    split at h
    · exact absurd h (by simp)
    · split at h
      next bs2 hbs2 =>
        simp only [Except.ok.injEq] at h
        subst h
        simp [ih bs2 hbs2]
      · exact absurd h (by simp)

theorem countP_isNone_isSome (f : Row → Option Int) (l : List Row) :
    l.countP (fun r => (f r).isNone) + l.countP (fun r => (f r).isSome) = l.length := by
  induction l with
  | nil => rfl
  | cons r rs ih =>
    cases h : f r <;> simp [List.countP_cons, h] <;> omega

theorem primesE_length (t : Table) (sv : List (Row × Int)) (prs : List Bool)
    (h : primesE t sv = .ok prs) : prs.length = sv.length := by
  unfold primesE at h
  split at h
  · have := collectE_length _ _ h
    simpa using this
  · simp only [Except.ok.injEq] at h
    subst h
    simp

theorem dupFlagsOf_length (t : Table) (sv : List (Row × Int)) :
    (dupFlagsOf t sv).length = sv.length := by
  unfold dupFlagsOf
  split <;> simp

/-- C8.  Exactly the rows whose date fails both the day-first and the
retried month-first parse are excluded from the canonical table, and
the QA metric `rows_dropped_due_to_invalid_dates` (literally
`rows_before - rows_after` in `write_qa_report`) equals the number of
rows whose date failed both parses: for every run of the pipeline that
produces a table, the output length is the count of date-parseable
rows, and the dropped count is the count of unparseable ones. -/
theorem c8_drop_accounting (dp dp2 : RawValue → Option Int) (t : Table) (recs : List CRec)
    (h : load_and_clean dp dp2 t = .ok recs) :
    recs.length = t.rows.countP (fun r => (rowDate dp dp2 t r).isSome) ∧
      qa_rows_dropped t.rows.length recs.length =
        t.rows.countP (fun r => (rowDate dp dp2 t r).isNone) := by
  have hlen : recs.length = (survivorsOf dp dp2 t).length := by
    unfold load_and_clean at h
    dsimp only at h
    split at h
    · split at h
      next e heq => exact Except.noConfusion h
      next prs heq =>
        split at h
        · exact Except.noConfusion h
        · injection h with heq2
          subst heq2
          have h1 := primesE_length t (survivorsOf dp dp2 t) prs heq
          have h2 := dupFlagsOf_length t (survivorsOf dp dp2 t)
          simp [List.length_zipWith, h1, h2]
    · exact Except.noConfusion h
  have hsv : (survivorsOf dp dp2 t).length
      = t.rows.countP (fun r => (rowDate dp dp2 t r).isSome) := by
    unfold survivorsOf
    exact filterMap_date_length dp dp2 t t.rows
  have hcount := countP_isNone_isSome (fun r => rowDate dp dp2 t r) t.rows
  have hle : t.rows.countP (fun r => (rowDate dp dp2 t r).isSome) ≤ t.rows.length :=
    List.countP_le_length _
  constructor
  · exact hlen.trans hsv
  · unfold qa_rows_dropped
    rw [hlen, hsv]
    omega

/-- Witness for C8, the end-to-end scenario of the spec: the concrete
5-row batch `exampleT`, whose third row has date `"not-a-date"`, yields
a 4-row canonical table and a dropped count of 1. -/
theorem c8_drop_accounting_witness :
    load_and_clean isoDate isoDate exampleT = .ok exampleRecs ∧
      exampleRecs.length = 4 ∧
      qa_rows_dropped exampleT.rows.length exampleRecs.length = 1 := by
  refine ⟨by decide, by decide, ?_⟩
  have h8 := c8_drop_accounting isoDate isoDate exampleT exampleRecs (by decide)
  exact h8.2.trans (by decide)

theorem two_le_countP_aux {α : Type} (l : List α) (p : α → Bool) (i j : Nat)
    (hi : i < l.length) (hj : j < l.length) (hij : i < j)
    (hpi : p (l.get ⟨i, hi⟩) = true) (hpj : p (l.get ⟨j, hj⟩) = true) :
    2 ≤ l.countP p := by
  simp only [List.get_eq_getElem] at hpi hpj
  have hmem : l[j] ∈ l.drop (i + 1) := by
    have hn : j - (i + 1) < (l.drop (i + 1)).length := by
      simp only [List.length_drop]
      omega
    have : (l.drop (i + 1))[j - (i + 1)] = l[j] := by
      rw [List.getElem_drop _]
      congr 1
      omega
    rw [← this]
    exact List.getElem_mem hn
  have h2 : ([l[j]] : List α).Sublist (l.drop (i + 1)) := List.singleton_sublist.mpr hmem
  have h3 : ([l[i], l[j]] : List α).Sublist (l[i] :: l.drop (i + 1)) := h2.cons₂ l[i]
  rw [← List.drop_eq_getElem_cons hi] at h3
  have h4 : ([l[i], l[j]] : List α).Sublist l := h3.trans (List.drop_sublist i l)
  have h5 : ([l[i], l[j]] : List α).countP p = 2 := by
    simp [List.countP_cons, hpi, hpj]
  calc 2 = ([l[i], l[j]] : List α).countP p := h5.symm
  _ ≤ l.countP p := List.Sublist.countP_le p h4

theorem two_le_countP {α : Type} (l : List α) (p : α → Bool) (i j : Nat)
    (hi : i < l.length) (hj : j < l.length) (hij : i ≠ j)
    (hpi : p (l.get ⟨i, hi⟩) = true) (hpj : p (l.get ⟨j, hj⟩) = true) :
    2 ≤ l.countP p := by
  rcases lt_or_gt_of_ne hij with hlt | hgt
  · exact two_le_countP_aux l p i j hi hj hlt hpi hpj
  · exact two_le_countP_aux l p j i hj hi hgt hpj hpi

theorem countP_le_one_unique {α : Type} (l : List α) (p : α → Bool) (k : Nat)
    (hk : k < l.length)
    (h : ∀ m (hm : m < l.length), m ≠ k → p (l.get ⟨m, hm⟩) = false) :
    l.countP p ≤ 1 := by
  simp only [List.get_eq_getElem] at h
  have htk : (l.take k).countP p = 0 := by
    rw [List.countP_eq_zero]
    intro a ha
    obtain ⟨n, hn, hna⟩ := List.mem_iff_getElem.mp ha
    have hnk : n < k := by
      simp only [List.length_take] at hn
      omega
    have hnl : n < l.length := by
      simp only [List.length_take] at hn
      omega
    have : (l.take k)[n] = l[n] := List.getElem_take _
    rw [this] at hna
    rw [← hna]
    simp [h n hnl (by omega)]
  have hdk : (l.drop (k + 1)).countP p = 0 := by
    rw [List.countP_eq_zero]
    intro a ha
    obtain ⟨n, hn, hna⟩ := List.mem_iff_getElem.mp ha
    have hnl : k + 1 + n < l.length := by
      simp only [List.length_drop] at hn
      omega
    have hg : (l.drop (k + 1))[n] = l[k + 1 + n] := List.getElem_drop _
    rw [hg] at hna
    rw [← hna]
    simp [h (k + 1 + n) hnl (by omega)]
  have hsplit : l.countP p = (l.take k).countP p + (l.drop k).countP p := by
    conv_lhs => rw [← List.take_append_drop k l]
    exact List.countP_append p _ _
  have hdrop : l.drop k = l[k] :: l.drop (k + 1) := List.drop_eq_getElem_cons hk
  rw [hsplit, htk, hdrop, List.countP_cons, hdk]
  split <;> omega

/-- C7, amended.  Duplicate flagging as the code computes it: in any
batch whose identifier columns are present, two surviving rows agreeing
on the four key fields are both flagged provided their transaction
identifiers are not missing (`transform("count")` counts non-null
`transaction_id` cells, so rows of an all-null-identifier group are
not flagged — the counterexample); and a row whose key matches no
other row is never flagged. -/
theorem c7_amended_dup_flagging (t : Table) (sv : List (Row × Int))
    (hcols : dupKeysPresent t = true)
    (i j : Fin sv.length) (hij : (i : Nat) ≠ (j : Nat))
    (hkey : keyOf t (sv.get i) = keyOf t (sv.get j))
    (hci : isna (getCell (sv.get i).1 "customer_id") = false)
    (hpi : isna (getCell (sv.get i).1 "product_id") = false)
    (hti : isna (getCell (sv.get i).1 "transaction_id") = false)
    (htj : isna (getCell (sv.get j).1 "transaction_id") = false) :
    (∀ hi2 : (i : Nat) < (dupFlagsOf t sv).length,
      (dupFlagsOf t sv).get ⟨i, hi2⟩ = true) ∧
    (∀ hj2 : (j : Nat) < (dupFlagsOf t sv).length,
      (dupFlagsOf t sv).get ⟨j, hj2⟩ = true) ∧
    (∀ k : Fin sv.length,
      (∀ m : Fin sv.length, (m : Nat) ≠ (k : Nat) →
        keyOf t (sv.get m) ≠ keyOf t (sv.get k)) →
      ∀ hk2 : (k : Nat) < (dupFlagsOf t sv).length,
        (dupFlagsOf t sv).get ⟨k, hk2⟩ = false) := by
  simp only [List.get_eq_getElem] at hkey hci hpi hti htj
  have hflags : dupFlagsOf t sv = sv.map (dupFlag t sv) := by
    unfold dupFlagsOf
    rw [if_pos hcols]
  have hget : ∀ (m : Fin sv.length) (hm2 : (m : Nat) < (dupFlagsOf t sv).length),
      (dupFlagsOf t sv).get ⟨m, hm2⟩ = dupFlag t sv sv[(m : Nat)] := by
    intro m hm2
    simp only [List.get_eq_getElem, hflags, List.getElem_map]
  have hcnt : 1 < sv.countP (fun rd2 =>
      decide (keyOf t rd2 = keyOf t sv[(i : Nat)] ∧
        ¬ isna (getCell rd2.1 "transaction_id") = true)) := by
    apply two_le_countP sv _ i j i.isLt j.isLt hij
    · simp only [List.get_eq_getElem, decide_eq_true_eq]
      exact ⟨trivial, by simp [hti]⟩
    · simp only [List.get_eq_getElem, decide_eq_true_eq]
      exact ⟨hkey.symm, by simp [htj]⟩
  refine ⟨?_, ?_, ?_⟩
  · intro hi2
    rw [hget i hi2]
    unfold dupFlag
    dsimp only
    have h1 : (keyOf t sv[(i : Nat)]).1 = getCell (sv[(i : Nat)]).1 "customer_id" := rfl
    have h2 : (keyOf t sv[(i : Nat)]).2.1 = getCell (sv[(i : Nat)]).1 "product_id" := rfl
    rw [h1, h2, hci, hpi]
    simp only [Bool.not_false, Bool.true_and]
    exact decide_eq_true hcnt
  · intro hj2
    rw [hget j hj2]
    unfold dupFlag
    dsimp only
    have h1 : (keyOf t sv[(j : Nat)]).1 = getCell (sv[(j : Nat)]).1 "customer_id" := rfl
    have h2 : (keyOf t sv[(j : Nat)]).2.1 = getCell (sv[(j : Nat)]).1 "product_id" := rfl
    have hcj : isna (getCell (sv[(j : Nat)]).1 "customer_id") = false := by
      rw [← h1, ← hkey]
      exact hci
    have hpj : isna (getCell (sv[(j : Nat)]).1 "product_id") = false := by
      rw [← h2, ← hkey]
      exact hpi
    rw [h1, h2, hcj, hpj, ← hkey]
    simp only [Bool.not_false, Bool.true_and]
    exact decide_eq_true hcnt
  · intro k hk hk2
    simp only [List.get_eq_getElem] at hk
    rw [hget k hk2]
    unfold dupFlag
    dsimp only
    have hle : sv.countP (fun rd2 =>
        decide (keyOf t rd2 = keyOf t sv[(k : Nat)] ∧
          ¬ isna (getCell rd2.1 "transaction_id") = true)) ≤ 1 := by
      apply countP_le_one_unique sv _ k k.isLt
      intro m hm hmk
      simp only [List.get_eq_getElem, decide_eq_false_iff_not]
      intro hcon
      exact hk ⟨m, hm⟩ hmk hcon.1
    have hnot : ¬ (1 < sv.countP (fun rd2 =>
        decide (keyOf t rd2 = keyOf t sv[(k : Nat)] ∧
          ¬ isna (getCell rd2.1 "transaction_id") = true))) := by omega
    simp only [decide_eq_false hnot, Bool.and_false]

/-- Witness for C7: on the concrete batch `tDup3` (rows 0 and 1 agree
on all four key fields and carry transaction identifiers, row 2 has a
different customer), rows 0 and 1 are flagged and row 2 is not. -/
theorem c7_amended_dup_flagging_witness :
    (dupFlagsOf tDup3 (survivorsOf isoDate isoDate tDup3)).get ⟨0, by decide⟩ = true ∧
      (dupFlagsOf tDup3 (survivorsOf isoDate isoDate tDup3)).get ⟨1, by decide⟩ = true ∧
      (dupFlagsOf tDup3 (survivorsOf isoDate isoDate tDup3)).get ⟨2, by decide⟩ = false := by
  have h := c7_amended_dup_flagging tDup3 (survivorsOf isoDate isoDate tDup3) (by decide)
    ⟨0, by decide⟩ ⟨1, by decide⟩ (by decide) (by decide) (by decide) (by decide)
    (by decide) (by decide)
  exact ⟨h.1 (by decide), h.2.1 (by decide), h.2.2 ⟨2, by decide⟩ (by decide) (by decide)⟩

theorem toNat_ofNat_small (n : Nat) (h : n < 55296) : (Char.ofNat n).toNat = n := by
  rw [Char.ofNat, dif_pos (Or.inl (by exact_mod_cast h))]
  rfl

theorem char_eq_iff_toNat (c d : Char) : c = d ↔ c.toNat = d.toNat := by
  constructor
  · intro h
    rw [h]
  · intro h
    apply Char.ext
    exact UInt32.ext h

theorem beq_space_iff (c : Char) : (c == ' ') = decide (c.toNat = 32) := by
  rcases Decidable.eq_or_ne c.toNat 32 with h | h
  · have : c = ' ' := (char_eq_iff_toNat c ' ').mpr (by simpa using h)
    simp [this, h]
  · have : c ≠ ' ' := fun hc => h (by rw [hc]; rfl)
    simp [this, h]

theorem upcChar_toNat (c : Char) :
    (upcChar c).toNat = if lowB c then c.toNat - 32 else c.toNat := by
  unfold upcChar
  split
  next h =>
    unfold lowB at h
    simp only [Bool.and_eq_true, decide_eq_true_eq] at h
    rw [toNat_ofNat_small _ (by omega)]
  · rfl

theorem lowcChar_toNat (c : Char) :
    (lowcChar c).toNat = if upB c then c.toNat + 32 else c.toNat := by
  unfold lowcChar
  split
  next h =>
    unfold upB at h
    simp only [Bool.and_eq_true, decide_eq_true_eq] at h
    rw [toNat_ofNat_small _ (by omega)]
  · rfl

theorem upB_lowcChar (c : Char) : upB (lowcChar c) = false := by
  have h := lowcChar_toNat c
  unfold upB at *
  rw [h]
  split
  next hc =>
    simp only [Bool.and_eq_true, decide_eq_true_eq] at hc
    simp only [Bool.and_eq_false_iff, decide_eq_false_iff_not]
    omega
  next hc =>
    simp only [Bool.and_eq_true, decide_eq_true_eq] at hc
    simp only [Bool.and_eq_false_iff, decide_eq_false_iff_not] at hc ⊢
    omega

theorem lowB_upcChar (c : Char) : lowB (upcChar c) = false := by
  have h := upcChar_toNat c
  unfold lowB at *
  rw [h]
  split
  next hc =>
    simp only [Bool.and_eq_true, decide_eq_true_eq] at hc
    simp only [Bool.and_eq_false_iff, decide_eq_false_iff_not]
    omega
  next hc =>
    simp only [Bool.and_eq_true, decide_eq_true_eq] at hc
    simp only [Bool.and_eq_false_iff, decide_eq_false_iff_not] at hc ⊢
    omega

theorem lowcChar_id_of (c : Char) (h : upB c = false) : lowcChar c = c := by
  unfold lowcChar
  rw [h]
  simp

theorem upcChar_id_of (c : Char) (h : lowB c = false) : upcChar c = c := by
  unfold upcChar
  rw [h]
  simp

theorem alphaB_lowcChar (c : Char) : alphaB (lowcChar c) = alphaB c := by
  have h := lowcChar_toNat c
  rw [Bool.eq_iff_iff]
  unfold alphaB upB lowB at *
  rw [h]
  split
  next hc =>
    simp only [Bool.and_eq_true, decide_eq_true_eq] at hc
    simp only [Bool.or_eq_true, Bool.and_eq_true, decide_eq_true_eq]
    omega
  next hc =>
    simp only [Bool.and_eq_true, decide_eq_true_eq, not_and, not_le] at hc
    simp only [Bool.or_eq_true, Bool.and_eq_true, decide_eq_true_eq]

theorem alphaB_upcChar (c : Char) : alphaB (upcChar c) = alphaB c := by
  have h := upcChar_toNat c
  rw [Bool.eq_iff_iff]
  unfold alphaB upB lowB at *
  rw [h]
  split
  next hc =>
    simp only [Bool.and_eq_true, decide_eq_true_eq] at hc
    simp only [Bool.or_eq_true, Bool.and_eq_true, decide_eq_true_eq]
    omega
  next hc =>
    simp only [Bool.or_eq_true, Bool.and_eq_true, decide_eq_true_eq]

theorem wsB_lowcChar (c : Char) : wsB (lowcChar c) = wsB c := by
  have h := lowcChar_toNat c
  rw [Bool.eq_iff_iff]
  unfold wsB upB at *
  rw [h]
  split
  next hc =>
    simp only [Bool.and_eq_true, decide_eq_true_eq] at hc
    simp only [Bool.or_eq_true, beq_iff_eq]
    omega
  next hc =>
    simp only [Bool.or_eq_true, beq_iff_eq]

theorem wsB_upcChar (c : Char) : wsB (upcChar c) = wsB c := by
  have h := upcChar_toNat c
  rw [Bool.eq_iff_iff]
  unfold wsB lowB at *
  rw [h]
  split
  next hc =>
    simp only [Bool.and_eq_true, decide_eq_true_eq] at hc
    simp only [Bool.or_eq_true, beq_iff_eq]
    omega
  next hc =>
    simp only [Bool.or_eq_true, beq_iff_eq]

theorem space_lowcChar (c : Char) : (lowcChar c == ' ') = (c == ' ') := by
  have h := lowcChar_toNat c
  rw [beq_space_iff, beq_space_iff, Bool.eq_iff_iff]
  unfold upB at *
  rw [h]
  split
  next hc =>
    simp only [Bool.and_eq_true, decide_eq_true_eq] at hc
    simp only [decide_eq_true_eq]
    omega
  next hc =>
    simp only [decide_eq_true_eq]

theorem space_upcChar (c : Char) : (upcChar c == ' ') = (c == ' ') := by
  have h := upcChar_toNat c
  rw [beq_space_iff, beq_space_iff, Bool.eq_iff_iff]
  unfold lowB at *
  rw [h]
  split
  next hc =>
    simp only [Bool.and_eq_true, decide_eq_true_eq] at hc
    simp only [decide_eq_true_eq]
    omega
  next hc =>
    simp only [decide_eq_true_eq]

theorem tchar_tchar (b : Bool) (c : Char) : tchar b (tchar b c) = tchar b c := by
  by_cases ha : alphaB c = true
  · cases b with
    | true =>
      have h1 : tchar true c = lowcChar c := by
        unfold tchar
        rw [ha]
        simp
      rw [h1]
      unfold tchar
      rw [alphaB_lowcChar, ha]
      simp only [if_true]
      exact lowcChar_id_of _ (upB_lowcChar c)
    | false =>
      have h1 : tchar false c = upcChar c := by
        unfold tchar
        rw [ha]
        simp
      rw [h1]
      unfold tchar
      rw [alphaB_upcChar, ha]
      simp only [if_true]
      exact upcChar_id_of _ (lowB_upcChar c)
  · have h1 : tchar b c = c := by
      unfold tchar
      rw [Bool.not_eq_true] at ha
      rw [ha]
      simp
    rw [h1, h1]

theorem alphaB_tchar (b : Bool) (c : Char) : alphaB (tchar b c) = alphaB c := by
  unfold tchar
  split
  · split
    · exact alphaB_lowcChar c
    · exact alphaB_upcChar c
  · rfl

theorem wsB_tchar (b : Bool) (c : Char) : wsB (tchar b c) = wsB c := by
  unfold tchar
  split
  · split
    · exact wsB_lowcChar c
    · exact wsB_upcChar c
  · rfl

theorem space_tchar (b : Bool) (c : Char) : (tchar b c == ' ') = (c == ' ') := by
  unfold tchar
  split
  · split
    · exact space_lowcChar c
    · exact space_upcChar c
  · rfl

theorem titleL_titleL (l : List Char) : ∀ b, titleL b (titleL b l) = titleL b l := by
  induction l with
  | nil => intro b; rfl
  | cons c cs ih =>
    intro b
    simp only [titleL]
    rw [tchar_tchar, alphaB_tchar, ih (alphaB c)]

theorem noWsStart_titleL (b : Bool) (l : List Char) :
    noWsStart (titleL b l) = noWsStart l := by
  cases l with
  | nil => rfl
  | cons c cs =>
    simp only [titleL, noWsStart]
    rw [wsB_tchar]

theorem okSq_titleL (l : List Char) : ∀ b, okSq l = true → okSq (titleL b l) = true := by
  induction l with
  | nil => intro b h; exact h
  | cons c cs ih =>
    intro b h
    cases cs with
    | nil =>
      simp only [titleL, okSq] at h ⊢
      rw [wsB_tchar, space_tchar]
      exact h
    | cons c2 cs2 =>
      simp only [titleL, okSq] at h ⊢
      simp only [Bool.and_eq_true] at h ⊢
      obtain ⟨hpair, htail⟩ := h
      constructor
      · rw [wsB_tchar, space_tchar, wsB_tchar]
        exact hpair
      · have h2 := ih (alphaB c) htail
        simp only [titleL] at h2
        exact h2

theorem lastNonWs_titleL (l : List Char) : ∀ b, lastNonWs (titleL b l) = lastNonWs l := by
  induction l with
  | nil => intro b; rfl
  | cons c cs ih =>
    intro b
    cases cs with
    | nil =>
      simp only [titleL, lastNonWs]
      rw [wsB_tchar]
    | cons c2 cs2 =>
      simp only [titleL, lastNonWs]
      have h2 := ih (alphaB c)
      simp only [titleL] at h2
      exact h2

theorem squeeze_cons_not_ws (c : Char) (cs : List Char) (h : wsB c = false) :
    squeeze (c :: cs) = c :: squeeze cs := by
  cases cs with
  | nil =>
    simp only [squeeze, h]
    rfl
  | cons c2 cs2 =>
    simp only [squeeze, h]
    rfl

theorem okSq_cons_not_ws (c : Char) (X : List Char) (hc : wsB c = false)
    (hX : okSq X = true) : okSq (c :: X) = true := by
  cases X with
  | nil => simp [okSq, hc]
  | cons x xs =>
    simp only [okSq, Bool.and_eq_true] at hX ⊢
    exact ⟨by simp [hc], hX⟩

theorem okSq_space_cons (c2 : Char) (r : List Char) (h2 : wsB c2 = false)
    (hX : okSq (c2 :: r) = true) : okSq (' ' :: c2 :: r) = true := by
  simp only [okSq, Bool.and_eq_true] at hX ⊢
  refine ⟨?_, hX⟩
  simp [h2]

theorem okSq_squeeze (l : List Char) : okSq (squeeze l) = true := by
  induction l with
  | nil => rfl
  | cons c cs ih =>
    cases cs with
    | nil =>
      simp only [squeeze]
      split
      · rfl
      next h =>
        simp only [okSq, Bool.or_eq_true]
        left
        simp [Bool.not_eq_true, h]
    | cons c2 cs2 =>
      by_cases hc : wsB c = true
      · by_cases hc2 : wsB c2 = true
        · simp only [squeeze, hc, hc2]
          simp only [if_true]
          exact ih
        · have hc2f : wsB c2 = false := by simp [Bool.not_eq_true] at hc2; exact hc2
          simp only [squeeze, hc, hc2f]
          simp only [if_true, Bool.false_eq_true, if_false]
          rw [squeeze_cons_not_ws c2 cs2 hc2f]
          apply okSq_space_cons c2 _ hc2f
          rw [← squeeze_cons_not_ws c2 cs2 hc2f]
          exact ih
      · have hcf : wsB c = false := by simp [Bool.not_eq_true] at hc; exact hc
        rw [squeeze_cons_not_ws c (c2 :: cs2) hcf]
        exact okSq_cons_not_ws c _ hcf ih

theorem squeeze_id_of_okSq (l : List Char) (h : okSq l = true) : squeeze l = l := by
  induction l with
  | nil => rfl
  | cons c cs ih =>
    cases cs with
    | nil =>
      simp only [okSq, Bool.or_eq_true] at h
      rcases h with h | h
      · simp only [squeeze]
        have hf : wsB c = false := by simpa using h
        simp [hf]
      · simp only [squeeze]
        have : c = ' ' := by simpa using h
        rw [this]
        simp [wsB]
    | cons c2 cs2 =>
      simp only [okSq, Bool.and_eq_true] at h
      obtain ⟨hpair, htail⟩ := h
      have ht := ih htail
      by_cases hc : wsB c = true
      · simp only [Bool.or_eq_true, Bool.and_eq_true] at hpair
        rcases hpair with hp | hp
        · have hf : wsB c = false := by simpa using hp
          rw [hf] at hc
          exact absurd hc (by simp)
        · obtain ⟨hsp, hc2⟩ := hp
          have hc2f : wsB c2 = false := by
            simpa [Bool.not_eq_true] using hc2
          have hceq : c = ' ' := by simpa using hsp
          simp only [squeeze, hc, hc2f]
          simp only [if_true, Bool.false_eq_true, if_false]
          rw [ht, hceq]
      · have hcf : wsB c = false := by simpa [Bool.not_eq_true] using hc
        rw [squeeze_cons_not_ws c _ hcf, ht]

theorem okSq_tail (c : Char) (cs : List Char) (h : okSq (c :: cs) = true) :
    okSq cs = true := by
  cases cs with
  | nil => rfl
  | cons c2 cs2 =>
    simp only [okSq, Bool.and_eq_true] at h
    exact h.2

theorem okSq_dropWhile (l : List Char) (h : okSq l = true) :
    okSq (l.dropWhile wsB) = true := by
  induction l with
  | nil => rfl
  | cons c cs ih =>
    by_cases hc : wsB c = true
    · rw [List.dropWhile_cons_of_pos hc]
      exact ih (okSq_tail c cs h)
    · rw [List.dropWhile_cons_of_neg hc]
      exact h

theorem dropTrail_cons_cases (c : Char) (cs : List Char) :
    (dropTrail (c :: cs) = [] ∧ dropTrail cs = []) ∨
      dropTrail (c :: cs) = c :: dropTrail cs := by
  simp only [dropTrail]
  cases h : dropTrail cs with
  | nil =>
    by_cases hc : wsB c = true
    · left
      simp [hc]
    · right
      have hf : wsB c = false := by simpa using hc
      simp [hf]
  | cons r rs => right; rfl

theorem okSq_dropTrail (l : List Char) (h : okSq l = true) :
    okSq (dropTrail l) = true := by
  induction l with
  | nil => rfl
  | cons c cs ih =>
    rcases dropTrail_cons_cases c cs with ⟨hd, hd0⟩ | hd
    · rw [hd]
      rfl
    · rw [hd]
      have htail := ih (okSq_tail c cs h)
      cases cs with
      | nil =>
        simp only [dropTrail]
        simpa [okSq] using h
      | cons c2 cs2 =>
        rcases dropTrail_cons_cases c2 cs2 with ⟨hd2, hd20⟩ | hd2
        · rw [hd2]
          simp only [okSq, Bool.and_eq_true, Bool.or_eq_true] at h
          simp only [okSq, Bool.or_eq_true]
          rcases h.1 with hp | hp
          · left
            exact hp
          · right
            exact hp.1
        · rw [hd2]
          rw [hd2] at htail
          simp only [okSq, Bool.and_eq_true, Bool.or_eq_true] at h ⊢
          exact ⟨h.1, htail⟩

theorem noWsStart_dropWhile (l : List Char) : noWsStart (l.dropWhile wsB) = true := by
  induction l with
  | nil => rfl
  | cons c cs ih =>
    by_cases hc : wsB c = true
    · rw [List.dropWhile_cons_of_pos hc]
      exact ih
    · rw [List.dropWhile_cons_of_neg hc]
      simp only [noWsStart]
      simpa using hc

theorem noWsStart_dropTrail (l : List Char) (h : noWsStart l = true) :
    noWsStart (dropTrail l) = true := by
  cases l with
  | nil => rfl
  | cons c cs =>
    rcases dropTrail_cons_cases c cs with ⟨hd, hd0⟩ | hd
    · rw [hd]
      rfl
    · rw [hd]
      exact h

theorem lastNonWs_dropTrail (l : List Char) : lastNonWs (dropTrail l) = true := by
  induction l with
  | nil => rfl
  | cons c cs ih =>
    rcases dropTrail_cons_cases c cs with ⟨hd, hd0⟩ | hd
    · rw [hd]
      rfl
    · rw [hd]
      cases hr : dropTrail cs with
      | nil =>
        rw [hr] at hd
        simp only [dropTrail, hr] at hd
        by_cases hc : wsB c = true
        · simp [hc] at hd
        · simp only [lastNonWs]
          simpa using hc
      | cons r rs =>
        show lastNonWs (r :: rs) = true
        rw [← hr]
        exact ih

theorem dropWhile_id_of_noWsStart (l : List Char) (h : noWsStart l = true) :
    l.dropWhile wsB = l := by
  cases l with
  | nil => rfl
  | cons c cs =>
    simp only [noWsStart] at h
    apply List.dropWhile_cons_of_neg
    simpa using h

theorem dropTrail_id_of_lastNonWs (l : List Char) (h : lastNonWs l = true) :
    dropTrail l = l := by
  induction l with
  | nil => rfl
  | cons c cs ih =>
    cases cs with
    | nil =>
      simp only [lastNonWs] at h
      simp only [dropTrail]
      simp [show wsB c = false by simpa using h]
    | cons c2 cs2 =>
      simp only [lastNonWs] at h
      have h2 := ih h
      rcases dropTrail_cons_cases c (c2 :: cs2) with ⟨hd, hd0⟩ | hd
      · rw [h2] at hd0
        exact absurd hd0 (by simp)
      · rw [hd, h2]

theorem nsl_fixed (l : List Char) (h1 : okSq l = true) (h2 : noWsStart l = true)
    (h3 : lastNonWs l = true) : pyStripL (squeeze l) = l := by
  unfold pyStripL
  rw [squeeze_id_of_okSq l h1, dropWhile_id_of_noWsStart l h2,
    dropTrail_id_of_lastNonWs l h3]

theorem okSq_nsl (l : List Char) : okSq (pyStripL (squeeze l)) = true :=
  okSq_dropTrail _ (okSq_dropWhile _ (okSq_squeeze l))

theorem noWsStart_nsl (l : List Char) : noWsStart (pyStripL (squeeze l)) = true :=
  noWsStart_dropTrail _ (noWsStart_dropWhile _)

theorem lastNonWs_nsl (l : List Char) : lastNonWs (pyStripL (squeeze l)) = true :=
  lastNonWs_dropTrail _

theorem nsl_title_nsl (l : List Char) :
    pyStripL (squeeze (titleL false (pyStripL (squeeze l))))
      = titleL false (pyStripL (squeeze l)) :=
  nsl_fixed _ (okSq_titleL _ false (okSq_nsl l))
    (by rw [noWsStart_titleL]; exact noWsStart_nsl l)
    (by rw [lastNonWs_titleL]; exact lastNonWs_nsl l)

theorem mem_squeeze_of_not_ws (c : Char) (l : List Char) (hm : c ∈ l)
    (hw : wsB c = false) : c ∈ squeeze l := by
  induction l with
  | nil => exact absurd hm (by simp)
  | cons a as ih =>
    rcases List.mem_cons.mp hm with rfl | hm2
    · rw [squeeze_cons_not_ws _ _ hw]
      exact List.mem_cons_self _ _
    · cases as with
      | nil => exact absurd hm2 (by simp)
      | cons a2 as2 =>
        by_cases ha : wsB a = true
        · by_cases ha2 : wsB a2 = true
          · simp only [squeeze, ha, ha2, if_true]
            exact ih hm2
          · have ha2f : wsB a2 = false := by simpa using ha2
            simp only [squeeze, ha, ha2f, if_true, Bool.false_eq_true, if_false]
            exact List.mem_cons_of_mem _ (ih hm2)
        · have haf : wsB a = false := by simpa using ha
          rw [squeeze_cons_not_ws _ _ haf]
          exact List.mem_cons_of_mem _ (ih hm2)

theorem mem_dropWhile_of_not_ws (c : Char) (l : List Char) (hm : c ∈ l)
    (hw : wsB c = false) : c ∈ l.dropWhile wsB := by
  induction l with
  | nil => exact absurd hm (by simp)
  | cons a as ih =>
    by_cases ha : wsB a = true
    · rw [List.dropWhile_cons_of_pos ha]
      rcases List.mem_cons.mp hm with rfl | hm2
      · rw [ha] at hw
        exact absurd hw (by simp)
      · exact ih hm2
    · rw [List.dropWhile_cons_of_neg ha]
      exact hm

theorem mem_dropTrail_of_not_ws (c : Char) (l : List Char) (hm : c ∈ l)
    (hw : wsB c = false) : c ∈ dropTrail l := by
  induction l with
  | nil => exact absurd hm (by simp)
  | cons a as ih =>
    rcases List.mem_cons.mp hm with rfl | hm2
    · rcases dropTrail_cons_cases c as with ⟨hd, hd0⟩ | hd
      · simp only [dropTrail, hd0] at hd
        rw [hw] at hd
        simp at hd
      · rw [hd]
        exact List.mem_cons_self _ _
    · rcases dropTrail_cons_cases a as with ⟨hd, hd0⟩ | hd
      · have := ih hm2
        rw [hd0] at this
        exact absurd this (by simp)
      · rw [hd]
        exact List.mem_cons_of_mem _ (ih hm2)

theorem exists_not_ws_titleL (b : Bool) (l : List Char)
    (h : ∃ c ∈ l, wsB c = false) : ∃ d ∈ titleL b l, wsB d = false := by
  induction l generalizing b with
  | nil =>
    obtain ⟨c, hc, _⟩ := h
    exact absurd hc (by simp)
  | cons a as ih =>
    obtain ⟨c, hc, hw⟩ := h
    rcases List.mem_cons.mp hc with rfl | hm2
    · refine ⟨tchar b c, List.mem_cons_self _ _, ?_⟩
      rw [wsB_tchar]
      exact hw
    · obtain ⟨d, hd, hdw⟩ := ih (alphaB a) ⟨c, hm2, hw⟩
      exact ⟨d, List.mem_cons_of_mem _ hd, hdw⟩

theorem strip_ne_nil_of_mem (c : Char) (l : List Char) (hm : c ∈ l)
    (hw : wsB c = false) : pyStripL l ≠ [] := by
  intro hcon
  have h1 := mem_dropTrail_of_not_ws c _ (mem_dropWhile_of_not_ws c l hm hw) hw
  have h2 : c ∈ pyStripL l := h1
  rw [hcon] at h2
  exact absurd h2 (by simp)

theorem strip_all_ws (l : List Char) (h : ∀ c ∈ l, wsB c = true) :
    pyStripL l = [] := by
  unfold pyStripL
  have hdw : l.dropWhile wsB = [] := List.dropWhile_eq_nil_iff.mpr (by
    intro x hx
    exact h x hx)
  rw [hdw]
  rfl

theorem exists_not_ws_of_strip_ne_nil (l : List Char) (h : pyStripL l ≠ []) :
    ∃ c ∈ l, wsB c = false := by
  by_contra hcon
  push_neg at hcon
  apply h
  apply strip_all_ws
  intro c hc
  have := hcon c hc
  simpa using this

theorem lookup_mem (k v : String) : ∀ (l : List (String × String)),
    l.lookup k = some v → (k, v) ∈ l := by
  intro l
  induction l with
  | nil =>
    intro h
    exact absurd h (by simp)
  | cons p ps ih =>
    obtain ⟨pk, pv⟩ := p
    intro h
    simp only [List.lookup] at h
    split at h
    next heq =>
      simp only [Option.some.injEq] at h
      subst h
      have : k = pk := by simpa using heq
      subst this
      exact List.mem_cons_self _ _
    next heq => exact List.mem_cons_of_mem _ (ih h)

theorem clean_city_passthrough_fixed (w : List Char)
    (hne : pyStripL w ≠ [])
    (hlk : CITY_FIX.lookup (String.mk (titleL false (pyStripL (squeeze w)))) = none) :
    clean_city (.str (String.mk (titleL false (pyStripL (squeeze w)))))
      = String.mk (titleL false (pyStripL (squeeze w))) := by
  obtain ⟨c, hcm, hcw⟩ := exists_not_ws_of_strip_ne_nil _ hne
  have hc1 : c ∈ pyStripL (squeeze w) :=
    mem_dropTrail_of_not_ws c _
      (mem_dropWhile_of_not_ws c _ (mem_squeeze_of_not_ws c _ hcm hcw) hcw) hcw
  obtain ⟨d, hdm, hdw⟩ := exists_not_ws_titleL false _ ⟨c, hc1, hcw⟩
  have hLne : pyStripL (titleL false (pyStripL (squeeze w))) ≠ [] :=
    strip_ne_nil_of_mem d _ hdm hdw
  have hblank : pyStripS (String.mk (titleL false (pyStripL (squeeze w)))) ≠ "" := by
    simp only [pyStripS]
    intro hcon
    apply hLne
    have h2 := congrArg String.data hcon
    simpa using h2
  have hcond : (isna (.str (String.mk (titleL false (pyStripL (squeeze w))))) ||
      pyStripS (rawStr (.str (String.mk (titleL false (pyStripL (squeeze w)))))) == "") = false := by
    simp only [isna, Bool.false_or, rawStr]
    exact beq_eq_false_iff_ne.mpr hblank
  have hnorm : normalize_space (String.mk (titleL false (pyStripL (squeeze w))))
      = String.mk (titleL false (pyStripL (squeeze w))) := by
    simp only [normalize_space]
    exact congrArg String.mk (nsl_title_nsl w)
  have htitle : pyTitleS (String.mk (titleL false (pyStripL (squeeze w))))
      = String.mk (titleL false (pyStripL (squeeze w))) := by
    simp only [pyTitleS]
    exact congrArg String.mk (titleL_titleL _ false)
  unfold clean_city
  rw [if_neg (by rw [hcond]; simp)]
  simp only [rawStr]
  rw [hnorm, htitle, hlk]

/-- C9.  The city normalizer is idempotent — `clean(clean(x)) =
clean(x)` for every raw input — and every output is `"Unknown"`, a
value of the `CITY_FIX` alias table, or the title-cased,
whitespace-collapsed pass-through of the input. -/
theorem c9_city_idempotent_and_canonical (x : RawValue) :
    clean_city (.str (clean_city x)) = clean_city x ∧
      (clean_city x = "Unknown" ∨ (∃ p ∈ CITY_FIX, clean_city x = p.2) ∨
        clean_city x = pyTitleS (normalize_space (rawStr x))) := by
  by_cases h1 : (isna x || pyStripS (rawStr x) == "") = true
  · have hx : clean_city x = "Unknown" := by
      unfold clean_city
      rw [if_pos h1]
    rw [hx]
    exact ⟨by decide, Or.inl rfl⟩
  · have h1f : (isna x || pyStripS (rawStr x) == "") = false := by
      simpa using h1
    have hx : clean_city x = (match CITY_FIX.lookup (pyTitleS (normalize_space (rawStr x))) with
      | some v => v
      | none => pyTitleS (normalize_space (rawStr x))) := by
      unfold clean_city
      rw [if_neg h1]
    cases hlk : CITY_FIX.lookup (pyTitleS (normalize_space (rawStr x))) with
    | some v =>
      rw [hlk] at hx
      have hx2 : clean_city x = v := hx
      have hmem := lookup_mem _ _ _ hlk
      constructor
      · rw [hx2]
        simp only [CITY_FIX, List.mem_cons, List.not_mem_nil, or_false,
          Prod.mk.injEq] at hmem
        rcases hmem with ⟨_, hv⟩ | ⟨_, hv⟩ | ⟨_, hv⟩ | ⟨_, hv⟩ | ⟨_, hv⟩ | ⟨_, hv⟩ | ⟨_, hv⟩ <;>
          rw [hv] <;> decide
      · exact Or.inr (Or.inl ⟨(pyTitleS (normalize_space (rawStr x)), v), hmem, hx2⟩)
    | none =>
      rw [hlk] at hx
      have hx2 : clean_city x = pyTitleS (normalize_space (rawStr x)) := hx
      refine ⟨?_, Or.inr (Or.inr hx2)⟩
      have hstrip : pyStripL (rawStr x).data ≠ [] := by
        intro hcon
        have h2 : (pyStripS (rawStr x) == "") = false :=
          (Bool.or_eq_false_iff.mp h1f).2
        have h3 : pyStripS (rawStr x) = "" := by
          simp only [pyStripS, hcon]
        rw [h3] at h2
        simp at h2
      have hL : pyTitleS (normalize_space (rawStr x))
          = String.mk (titleL false (pyStripL (squeeze (rawStr x).data))) := rfl
      rw [hx2, hL]
      rw [hL] at hlk
      exact clean_city_passthrough_fixed (rawStr x).data hstrip hlk
